import Mathlib

/-!
Verification of the contact-manager data model of `hw-3.py`.

The Python source is shallowly embedded: pure methods become Lean functions,
in-place mutation becomes explicit state passing, the Python `dict` backing
`AddressBook` becomes an association list in insertion order, and constructors
that can raise return `Except`.  Strings are modelled over the ASCII
repertoire, on which Python's Unicode-aware `str.isdigit` and the regex class
`\d` coincide with the 0-9 digit test.
-/

namespace Hw3

/-- Proleptic Gregorian calendar date, as Python's `datetime.date` (and the
date part of a `datetime.datetime`). -/
structure Date where
  year : Nat
  month : Nat
  day : Nat
deriving DecidableEq

/-- Gregorian leap-year rule used by Python's `datetime` module. -/
def isLeapYear (y : Nat) : Bool :=
  y % 4 == 0 && (y % 100 != 0 || y % 400 == 0)

/-- Number of days of month `m` in year `y` (months are 1-based). -/
def daysInMonth (y m : Nat) : Nat :=
  if m == 2 then (if isLeapYear y then 29 else 28)
  else if m == 4 || m == 6 || m == 9 || m == 11 then 30
  else 31

/-- The day after `d`, rolling over month and year boundaries. -/
def Date.next (d : Date) : Date :=
  if d.day < daysInMonth d.year d.month then ⟨d.year, d.month, d.day + 1⟩
  else if d.month < 12 then ⟨d.year, d.month + 1, 1⟩
  else ⟨d.year + 1, 1, 1⟩

/-- Python `d + datetime.timedelta(days=n)`. -/
def Date.addDays (d : Date) : Nat → Date
  | 0 => d
  | n + 1 => d.next.addDays n

/-- The Python exceptions the embedded code can raise. -/
inductive PyErr where
  | valueError
  | keyError
  | attributeError
deriving DecidableEq

/-- Field subclass `Name` (src lines 13-14): a bare string wrapper. -/
structure Name where
  value : String
deriving DecidableEq

/-- Field subclass `Phone` (src lines 17-24): a validated string wrapper. -/
structure Phone where
  value : String
deriving DecidableEq

/-- Method `Phone.validate` (src line 24):
`len(self.value) == 10 and self.value.isdigit()`. -/
def Phone.validate (s : String) : Bool :=
  s.length == 10 && s.data.all Char.isDigit

/-- Constructor `Phone(value)` (src lines 18-21): stores the string and raises
`ValueError` when `validate` is false. -/
def Phone.init (s : String) : Except PyErr Phone :=
  if Phone.validate s then .ok ⟨s⟩ else .error .valueError

/-- Numeric value of a digit character. -/
def digitVal (c : Char) : Nat := c.toNat - 48

/-- CPython's `_strptime` matches the `%d` directive with the regex
alternation `3[01]|[12]\d|0[1-9]|[1-9]` (one or two digit characters). -/
def matchDay : List Char → Option Nat
  | [c] => if c.isDigit && c != '0' then some (digitVal c) else none
  | [c1, c2] =>
    if c1 == '3' && (c2 == '0' || c2 == '1') then some (30 + digitVal c2)
    else if (c1 == '1' || c1 == '2') && c2.isDigit then
      some (10 * digitVal c1 + digitVal c2)
    else if c1 == '0' && c2.isDigit && c2 != '0' then some (digitVal c2)
    else none
  | _ => none

/-- CPython's `_strptime` matches the `%m` directive with the regex
alternation `1[0-2]|0[1-9]|[1-9]`. -/
def matchMonth : List Char → Option Nat
  | [c] => if c.isDigit && c != '0' then some (digitVal c) else none
  | [c1, c2] =>
    if c1 == '1' && (c2 == '0' || c2 == '1' || c2 == '2') then
      some (10 + digitVal c2)
    else if c1 == '0' && c2.isDigit && c2 != '0' then some (digitVal c2)
    else none
  | _ => none

/-- CPython's `_strptime` matches the `%Y` directive with `\d\d\d\d`:
exactly four digit characters. -/
def matchYear : List Char → Option Nat
  | [c1, c2, c3, c4] =>
    if c1.isDigit && c2.isDigit && c3.isDigit && c4.isDigit then
      some (1000 * digitVal c1 + 100 * digitVal c2 + 10 * digitVal c3 + digitVal c4)
    else none
  | _ => none

/-- Split a character list at every dot.  The anchored regex that `_strptime`
compiles for the format `%d.%m.%Y` is `(day)\.(month)\.(year)` with dot-free
groups, so it matches a string exactly when this decomposition produces three
parts accepted by the group matchers. -/
def splitOnDot : List Char → List (List Char)
  | [] => [[]]
  | c :: rest =>
    if c = '.' then [] :: splitOnDot rest
    else match splitOnDot rest with
      | [] => [[c]]
      | p :: ps => (c :: p) :: ps

/-- Field subclass `Birthday` (src lines 27-37): stores the parsed datetime
(whose time part is always midnight; only the date is modelled). -/
structure Birthday where
  value : Date
deriving DecidableEq

/-- Method `Birthday.validate` (src lines 33-37):
`datetime.datetime.strptime(date_string, '%d.%m.%Y')`, returning the parsed
date, or `none` when `strptime` raises `ValueError`.  After the regex match the
`datetime` constructor rejects year 0 and a day beyond the month's length. -/
def Birthday.validate (s : String) : Option Date :=
  match splitOnDot s.data with
  | [ds, ms, ys] =>
    match matchDay ds, matchMonth ms, matchYear ys with
    | some d, some m, some y =>
      if 1 ≤ y ∧ d ≤ daysInMonth y m then some ⟨y, m, d⟩ else none
    | _, _, _ => none
  | _ => none

/-- Constructor `Birthday(date_string)` (src lines 28-31): raises `ValueError`
when `validate` returns no date. -/
def Birthday.init (s : String) : Except PyErr Birthday :=
  match Birthday.validate s with
  | some d => .ok ⟨d⟩
  | none => .error .valueError

/-- Class `Record` (src lines 40-80): one contact. -/
structure Record where
  name : Name
  phones : List Phone
  birthday : Option Birthday
deriving DecidableEq

/-- Constructor `Record(name)` (src lines 41-44). -/
def Record.init (name : String) : Record := ⟨⟨name⟩, [], none⟩

/-- Method `Record.add_phone` (src lines 46-47): `Phone(phone_number)` may
raise, in which case nothing is appended. -/
def Record.add_phone (r : Record) (phone_number : String) : Except PyErr Record :=
  match Phone.init phone_number with
  | .ok p => .ok { r with phones := r.phones ++ [p] }
  | .error e => .error e

/-- Method `Record.remove_phone` (src lines 49-50): keeps exactly the phones
whose value differs from `phone_number`. -/
def Record.remove_phone (r : Record) (phone_number : String) : Record :=
  { r with phones := r.phones.filter (fun p => p.value != phone_number) }

/-- The first-match in-place edit loop of `Record.edit_phone` (src lines 52-56). -/
def editFirst : List Phone → String → String → List Phone
  | [], _, _ => []
  | p :: rest, old, new =>
    if p.value == old then ⟨new⟩ :: rest
    else p :: editFirst rest old new

/-- Method `Record.edit_phone` (src lines 52-56): replaces the value of the
first phone equal to `old_number`; no phone matching is a silent no-op. -/
def Record.edit_phone (r : Record) (old_number new_number : String) : Record :=
  { r with phones := editFirst r.phones old_number new_number }

/-- Method `Record.find_phone` (src lines 58-59). -/
def Record.find_phone (r : Record) (phone_number : String) : Option Phone :=
  r.phones.find? (fun p => p.value == phone_number)

/-- Method `Record.add_birthday` (src lines 61-63): unconditional overwrite. -/
def Record.add_birthday (r : Record) (b : Birthday) : Record :=
  { r with birthday := some b }

/-- Method `Record.days_to_birthday` (src lines 65-75).  With no birthday it
returns `None`.  Otherwise line 70 evaluates `self.birthday.month` and
`self.birthday.day`; a `Birthday` object stores the parsed datetime in its only
attribute `value`, and neither `Birthday` nor `Field` defines a `month` or
`day` attribute, so Python raises `AttributeError` before any date arithmetic
happens.  (Contrast `birthdays_handler`, src line 170, which correctly reads
`contact.birthday.value.month`.) -/
def Record.days_to_birthday (r : Record) (today : Date) : Except PyErr (Option Int) :=
  match r.birthday with
  | none => .ok none
  | some _ => .error .attributeError

/-- Zero-pad a number below 100 to two digits, as `datetime` printing does. -/
def pad2 (n : Nat) : String := if n < 10 then "0" ++ toString n else toString n

/-- Zero-pad a year below 10000 to four digits, as `datetime` printing does. -/
def pad4 (n : Nat) : String :=
  if n < 10 then "000" ++ toString n
  else if n < 100 then "00" ++ toString n
  else if n < 1000 then "0" ++ toString n
  else toString n

/-- Python `str(datetime.datetime(y, m, d))`, a midnight datetime: this is what
`str(self.birthday)` interpolates, `Field.__str__` being `str(self.value)`. -/
def datetimeStr (d : Date) : String :=
  pad4 d.year ++ "-" ++ pad2 d.month ++ "-" ++ pad2 d.day ++ " 00:00:00"

/-- Method `Record.__str__` (src lines 77-80).  The body is one conditional
expression: the three implicitly concatenated f-strings form the if-branch of
a single ternary `... if self.birthday else ""`, so when `self.birthday` is
`None` the method returns the empty string. -/
def Record.str (r : Record) : String :=
  match r.birthday with
  | some b =>
    "Contact name: " ++ r.name.value ++ ", phones: " ++
      String.intercalate "; " (r.phones.map Phone.value) ++
      ", birthday: " ++ datetimeStr b.value
  | none => ""

/-- Class `AddressBook` (src lines 83-105): its `UserDict` data, a Python dict
from name to record, modelled as an association list in insertion order
(overwriting a key keeps its position, new keys are appended at the end). -/
abbrev AddressBook := List (String × Record)

/-- Python dict assignment `self.data[k] = v`. -/
def dictSet (b : AddressBook) (k : String) (v : Record) : AddressBook :=
  match b with
  | [] => [(k, v)]
  | kv :: rest => if kv.1 == k then (k, v) :: rest else kv :: dictSet rest k v

/-- Python `self.data.get(k)`: the value, or `None` when the key is missing. -/
def dictGet (b : AddressBook) (k : String) : Option Record :=
  match b with
  | [] => none
  | kv :: rest => if kv.1 == k then some kv.2 else dictGet rest k

/-- Python `del self.data[k]`: removes the entry or raises `KeyError`. -/
def dictDel (b : AddressBook) (k : String) : Except PyErr AddressBook :=
  match b with
  | [] => .error .keyError
  | kv :: rest =>
    if kv.1 == k then .ok rest
    else match dictDel rest k with
      | .ok rest2 => .ok (kv :: rest2)
      | .error e => .error e

/-- Method `AddressBook.add_record` (src lines 84-85). -/
def AddressBook.add_record (b : AddressBook) (r : Record) : AddressBook :=
  dictSet b r.name.value r

/-- Method `AddressBook.find` (src lines 87-88). -/
def AddressBook.find (b : AddressBook) (name : String) : Option Record :=
  dictGet b name

/-- Method `AddressBook.delete` (src lines 90-91). -/
def AddressBook.delete (b : AddressBook) (name : String) : Except PyErr AddressBook :=
  dictDel b name

/-- Method `AddressBook.change_phone` (src lines 93-97): truthiness of `record`
is always true for a `Record` object, truthiness of `record.phones` means a
non-empty list; mutating the looked-up record in place is modelled by writing
the edited record back at its key. -/
def AddressBook.change_phone (b : AddressBook) (name new_phone : String) : AddressBook :=
  match dictGet b name with
  | none => b
  | some r =>
    match r.phones with
    | [] => b
    | p0 :: _ => dictSet b name (Record.edit_phone r p0.value new_phone)

/-- Method `AddressBook.show_phone` (src lines 99-102): implicitly returns
`None` when the contact is absent. -/
def AddressBook.show_phone (b : AddressBook) (name : String) : Option String :=
  match dictGet b name with
  | none => none
  | some r => some (String.intercalate "; " (r.phones.map Phone.value))

/-- Python tuple comparison `(a1, a2) <= (b1, b2)`: lexicographic order. -/
def tupLe (a b : Nat × Nat) : Bool :=
  decide (a.1 < b.1) || (a.1 == b.1 && decide (a.2 ≤ b.2))

/-- The record-collecting loop of `birthdays_handler` (src lines 163-172):
`next_week = today + timedelta(days=7)`; a contact with a birthday is kept when
its `(day, month)` tuple is at least today's and at most next week's. -/
def birthdaysUpcoming (b : AddressBook) (today : Date) : List Record :=
  (b.map Prod.snd).foldl
    (fun acc contact =>
      match contact.birthday with
      | none => acc
      | some bd =>
        if tupLe (today.day, today.month) (bd.value.day, bd.value.month) &&
           tupLe (bd.value.day, bd.value.month)
             ((today.addDays 7).day, (today.addDays 7).month)
        then acc ++ [contact] else acc)
    []

/-- Spec-side lexicographic order on pairs, written from the claim's words:
the comparison is lexicographic tuple ordering. -/
def pairLexLe (a b : Nat × Nat) : Prop :=
  a.1 < b.1 ∨ (a.1 = b.1 ∧ a.2 ≤ b.2)

instance (a b : Nat × Nat) : Decidable (pairLexLe a b) :=
  inferInstanceAs (Decidable (a.1 < b.1 ∨ (a.1 = b.1 ∧ a.2 ≤ b.2)))

/-- Spec-side selection rule for the upcoming-birthdays query, written from the
claim: the record has a birthday and its (day, month) pair lies in the
inclusive window from today's (day, month) to (today + 7 days)'s (day, month),
under lexicographic (day, month) ordering. -/
def specSelected (today : Date) (r : Record) : Bool :=
  match r.birthday with
  | none => false
  | some bd =>
    decide (pairLexLe (today.day, today.month) (bd.value.day, bd.value.month)) &&
    decide (pairLexLe (bd.value.day, bd.value.month)
      ((Date.addDays today 7).day, (Date.addDays today 7).month))

/-- Spec-side strict birthday format of claim C4: two-digit day, a dot,
two-digit month, a dot, four-digit year, denoting a possible calendar date. -/
def strictFormatValid (s : String) : Bool :=
  match s.data with
  | [d1, d2, s1, m1, m2, s2, y1, y2, y3, y4] =>
    s1 == '.' && s2 == '.' &&
    d1.isDigit && d2.isDigit && m1.isDigit && m2.isDigit &&
    y1.isDigit && y2.isDigit && y3.isDigit && y4.isDigit &&
    (let d := 10 * digitVal d1 + digitVal d2
     let m := 10 * digitVal m1 + digitVal m2
     let y := 1000 * digitVal y1 + 100 * digitVal y2 + 10 * digitVal y3 + digitVal y4
     decide (1 ≤ y) && decide (1 ≤ m) && decide (m ≤ 12) &&
     decide (1 ≤ d) && decide (d ≤ daysInMonth y m))
  | _ => false

/-- Numeric value of a list of digit characters, most significant first. -/
def digitsToNat (cs : List Char) : Nat :=
  cs.foldl (fun a c => 10 * a + digitVal c) 0

/-- A field of one or two digit characters whose value lies in `lo..hi`. -/
def DigitField (cs : List Char) (lo hi : Nat) : Prop :=
  (∀ c ∈ cs, c.isDigit = true) ∧ 1 ≤ cs.length ∧ cs.length ≤ 2 ∧
  lo ≤ digitsToNat cs ∧ digitsToNat cs ≤ hi

instance (cs : List Char) (lo hi : Nat) : Decidable (DigitField cs lo hi) :=
  inferInstanceAs (Decidable (_ ∧ _ ∧ _ ∧ _ ∧ _))

/-- A field of exactly four digit characters. -/
def YearField (cs : List Char) : Prop :=
  (∀ c ∈ cs, c.isDigit = true) ∧ cs.length = 4

instance (cs : List Char) : Decidable (YearField cs) :=
  inferInstanceAs (Decidable (_ ∧ _))

/-- Spec-side amended birthday format: a one- or two-digit day with value 1-31,
a dot, a one- or two-digit month with value 1-12, a dot, a four-digit year,
denoting a possible calendar date (year at least 1, day within the month). -/
def lenientDMY (s : String) : Bool :=
  match splitOnDot s.data with
  | [ds, ms, ys] =>
    decide (DigitField ds 1 31) && decide (DigitField ms 1 12) &&
    decide (YearField ys) && decide (1 ≤ digitsToNat ys) &&
    decide (digitsToNat ds ≤ daysInMonth (digitsToNat ys) (digitsToNat ms))
  | _ => false

/-- The address-book mutations the spec's claim C10 ranges over. -/
inductive Op where
  | addRecord (r : Record)
  | del (name : String)
  | changePhone (name new_phone : String)
  | addPhone (name phone_number : String)
  | removePhone (name phone_number : String)
  | editPhone (name old_number new_number : String)
  | setBirthday (name : String) (b : Birthday)

/-- Apply a record-level mutation to the record stored at key `name`, as the
handlers do after a successful `find`; a missing name is the handlers' no-op
path. -/
def updateAt (b : AddressBook) (name : String) (f : Record → Record) : AddressBook :=
  b.map (fun kv => if kv.1 == name then (kv.1, f kv.2) else kv)

/-- One program step on the shared book.  A raising `delete` and a raising
`Phone` construction leave the book unchanged: the exception propagates before
any write happens. -/
def applyOp (b : AddressBook) : Op → AddressBook
  | .addRecord r => AddressBook.add_record b r
  | .del n =>
    match AddressBook.delete b n with
    | .ok b2 => b2
    | .error _ => b
  | .changePhone n p => AddressBook.change_phone b n p
  | .addPhone n s =>
    updateAt b n (fun r =>
      match Record.add_phone r s with
      | .ok r2 => r2
      | .error _ => r)
  | .removePhone n s => updateAt b n (fun r => Record.remove_phone r s)
  | .editPhone n o w => updateAt b n (fun r => Record.edit_phone r o w)
  | .setBirthday n bd => updateAt b n (fun r => Record.add_birthday r bd)

/-- Address books reachable from the empty book by any operation sequence. -/
inductive Reachable : AddressBook → Prop where
  | empty : Reachable []
  | step (b : AddressBook) (op : Op) : Reachable b → Reachable (applyOp b op)

/-- Every stored record's name field equals the key it is stored under. -/
def NameKeyInvariant (b : AddressBook) : Prop :=
  ∀ kv ∈ b, (Prod.snd kv).name.value = kv.1

/-- Number of entries stored under key `k`. -/
def countKey (b : AddressBook) (k : String) : Nat :=
  (b.filter (fun kv => kv.1 == k)).length

/-! Helper lemmas on characters and the strptime field matchers. -/

theorem char_toNat_inj (c d : Char) : c = d ↔ c.toNat = d.toNat :=
  ⟨fun h => h ▸ rfl, fun h => Char.ext (UInt32.ext h)⟩

theorem char_le_iff (c d : Char) : c ≤ d ↔ c.toNat ≤ d.toNat := by
  rw [Char.le_def, UInt32.le_def, BitVec.le_def]
  exact Iff.rfl

theorem isDigit_iff (c : Char) : c.isDigit = true ↔ 48 ≤ c.toNat ∧ c.toNat ≤ 57 := by
  have h1 : ((48 : UInt32) ≤ c.val) ↔ 48 ≤ c.toNat := by
    rw [UInt32.le_def, BitVec.le_def]
    exact Iff.rfl
  have h2 : (c.val ≤ (57 : UInt32)) ↔ c.toNat ≤ 57 := by
    rw [UInt32.le_def, BitVec.le_def]
    exact Iff.rfl
  simp only [Char.isDigit, Bool.and_eq_true, decide_eq_true_eq, ge_iff_le, h1, h2]

theorem digitsToNat_one (c : Char) : digitsToNat [c] = digitVal c := by
  simp [digitsToNat]

theorem digitsToNat_two (c1 c2 : Char) :
    digitsToNat [c1, c2] = 10 * digitVal c1 + digitVal c2 := by
  simp [digitsToNat]

theorem digitsToNat_four (c1 c2 c3 c4 : Char) :
    digitsToNat [c1, c2, c3, c4] =
      1000 * digitVal c1 + 100 * digitVal c2 + 10 * digitVal c3 + digitVal c4 := by
  simp [digitsToNat]
  ring

theorem DigitField_one (c : Char) (lo hi : Nat) (h : c.isDigit = true)
    (hlo : lo ≤ digitVal c) (hhi : digitVal c ≤ hi) : DigitField [c] lo hi := by
  refine ⟨?_, by simp, by simp, ?_, ?_⟩
  · intro x hx
    rcases List.mem_singleton.mp hx with rfl
    exact h
  · rw [digitsToNat_one]; exact hlo
  · rw [digitsToNat_one]; exact hhi

theorem DigitField_two (c1 c2 : Char) (lo hi : Nat)
    (h1 : c1.isDigit = true) (h2 : c2.isDigit = true)
    (hlo : lo ≤ 10 * digitVal c1 + digitVal c2)
    (hhi : 10 * digitVal c1 + digitVal c2 ≤ hi) : DigitField [c1, c2] lo hi := by
  refine ⟨?_, by simp, by simp, ?_, ?_⟩
  · intro x hx
    rcases List.mem_cons.mp hx with rfl | hx2
    · exact h1
    · rcases List.mem_singleton.mp hx2 with rfl
      exact h2
  · rw [digitsToNat_two]; exact hlo
  · rw [digitsToNat_two]; exact hhi

theorem toNat_char0 : ('0' : Char).toNat = 48 := rfl

theorem toNat_char1 : ('1' : Char).toNat = 49 := rfl

theorem toNat_char2 : ('2' : Char).toNat = 50 := rfl

theorem toNat_char3 : ('3' : Char).toNat = 51 := rfl

theorem char_eq_of_toNat (c : Char) (d : Char) (h : c.toNat = d.toNat) : c = d :=
  (char_toNat_inj c d).mpr h

/-- The `%d` matcher accepts exactly the one- or two-digit representations of
the values 1 to 31. -/
theorem matchDay_eq (cs : List Char) :
    matchDay cs = if DigitField cs 1 31 then some (digitsToNat cs) else none := by
  match cs with
  | [] =>
    rw [if_neg]
    · rfl
    · rintro ⟨-, h, -⟩
      simp at h
  | [c] =>
    by_cases hd : c.isDigit = true
    · have hrange := (isDigit_iff c).mp hd
      by_cases h0 : c = '0'
      · subst h0
        rw [if_neg]
        · simp [matchDay]
        · rintro ⟨-, -, -, h1, -⟩
          rw [digitsToNat_one] at h1
          simp [digitVal, toNat_char0] at h1
      · have hne : c.toNat ≠ 48 := by
          intro hh
          exact h0 (char_eq_of_toNat c '0' (by rw [hh, toNat_char0]))
        have hDF : DigitField [c] 1 31 := by
          apply DigitField_one c 1 31 hd
          · unfold digitVal; omega
          · unfold digitVal; omega
        rw [if_pos hDF, digitsToNat_one]
        simp [matchDay, hd, h0]
    · rw [if_neg]
      · simp [matchDay, hd]
      · rintro ⟨hall, -⟩
        exact hd (hall c (List.mem_singleton.mpr rfl))
  | [c1, c2] =>
    by_cases hDF : DigitField [c1, c2] 1 31
    · rw [if_pos hDF]
      obtain ⟨hall, -, -, hlo, hhi⟩ := hDF
      have hd1 : c1.isDigit = true := hall c1 (by simp)
      have hd2 : c2.isDigit = true := hall c2 (by simp)
      have hr1 := (isDigit_iff c1).mp hd1
      have hr2 := (isDigit_iff c2).mp hd2
      rw [digitsToNat_two] at hlo hhi ⊢
      have ha : c1.toNat = 48 ∨ c1.toNat = 49 ∨ c1.toNat = 50 ∨ c1.toNat = 51 := by
        unfold digitVal at hlo hhi
        omega
      rcases ha with ha | ha | ha | ha
      · have hc1 : c1 = '0' := char_eq_of_toNat c1 '0' (by rw [ha, toNat_char0])
        subst hc1
        have hb : c2.toNat ≠ 48 := by
          unfold digitVal at hlo
          rw [toNat_char0] at hlo
          omega
        have h02 : c2 ≠ '0' := by
          intro hh
          rw [hh, toNat_char0] at hb
          exact hb rfl
        simp only [matchDay]
        split_ifs with g1 g2 g3
        · simp at g1
        · simp at g2
        · simp only [Option.some.injEq, digitVal, toNat_char0]
          omega
        · exfalso
          apply g3
          simp [hd2, h02]
      · have hc1 : c1 = '1' := char_eq_of_toNat c1 '1' (by rw [ha, toNat_char1])
        subst hc1
        simp only [matchDay]
        split_ifs with g1 g2 g3
        · simp at g1
        · rfl
        · simp at g3
        · exfalso
          apply g2
          simp [hd2]
      · have hc1 : c1 = '2' := char_eq_of_toNat c1 '2' (by rw [ha, toNat_char2])
        subst hc1
        simp only [matchDay]
        split_ifs with g1 g2 g3
        · simp at g1
        · rfl
        · simp at g3
        · exfalso
          apply g2
          simp [hd2]
      · have hc1 : c1 = '3' := char_eq_of_toNat c1 '3' (by rw [ha, toNat_char3])
        subst hc1
        have hb : c2.toNat = 48 ∨ c2.toNat = 49 := by
          unfold digitVal at hhi
          rw [toNat_char3] at hhi
          omega
        rcases hb with hb | hb
        · have hc2 : c2 = '0' := char_eq_of_toNat c2 '0' (by rw [hb, toNat_char0])
          subst hc2
          decide
        · have hc2 : c2 = '1' := char_eq_of_toNat c2 '1' (by rw [hb, toNat_char1])
          subst hc2
          decide
    · rw [if_neg hDF]
      simp only [matchDay]
      split_ifs with h1 h2 h3
      · exfalso
        simp only [Bool.and_eq_true, Bool.or_eq_true, beq_iff_eq] at h1
        obtain ⟨rfl, hc2⟩ := h1
        apply hDF
        rcases hc2 with rfl | rfl
        · decide
        · decide
      · exfalso
        simp only [Bool.and_eq_true, Bool.or_eq_true, beq_iff_eq] at h2
        obtain ⟨hc1, hd2⟩ := h2
        have hr2 := (isDigit_iff c2).mp hd2
        apply hDF
        rcases hc1 with rfl | rfl
        · apply DigitField_two '1' c2 1 31 (by decide) hd2
          · simp only [digitVal, toNat_char1]
            omega
          · simp only [digitVal, toNat_char1]
            omega
        · apply DigitField_two '2' c2 1 31 (by decide) hd2
          · simp only [digitVal, toNat_char2]
            omega
          · simp only [digitVal, toNat_char2]
            omega
      · exfalso
        simp only [Bool.and_eq_true, bne_iff_ne, ne_eq, beq_iff_eq] at h3
        obtain ⟨⟨rfl, hd2⟩, h02⟩ := h3
        have hr2 := (isDigit_iff c2).mp hd2
        have hb : c2.toNat ≠ 48 := by
          intro hh
          exact h02 (char_eq_of_toNat c2 '0' (by rw [hh, toNat_char0]))
        apply hDF
        apply DigitField_two '0' c2 1 31 (by decide) hd2
        · simp only [digitVal, toNat_char0]
          omega
        · simp only [digitVal, toNat_char0]
          omega
      · rfl
  | c1 :: c2 :: c3 :: rest =>
    rw [if_neg]
    · rfl
    · rintro ⟨-, -, h, -⟩
      simp [List.length_cons] at h

/-- The `%m` matcher accepts exactly the one- or two-digit representations of
the values 1 to 12. -/
theorem matchMonth_eq (cs : List Char) :
    matchMonth cs = if DigitField cs 1 12 then some (digitsToNat cs) else none := by
  match cs with
  | [] =>
    rw [if_neg]
    · rfl
    · rintro ⟨-, h, -⟩
      simp at h
  | [c] =>
    by_cases hd : c.isDigit = true
    · have hrange := (isDigit_iff c).mp hd
      by_cases h0 : c = '0'
      · subst h0
        rw [if_neg]
        · simp [matchMonth]
        · rintro ⟨-, -, -, h1, -⟩
          rw [digitsToNat_one] at h1
          simp [digitVal, toNat_char0] at h1
      · have hne : c.toNat ≠ 48 := by
          intro hh
          exact h0 (char_eq_of_toNat c '0' (by rw [hh, toNat_char0]))
        have hDF : DigitField [c] 1 12 := by
          apply DigitField_one c 1 12 hd
          · unfold digitVal; omega
          · unfold digitVal; omega
        rw [if_pos hDF, digitsToNat_one]
        simp [matchMonth, hd, h0]
    · rw [if_neg]
      · simp [matchMonth, hd]
      · rintro ⟨hall, -⟩
        exact hd (hall c (List.mem_singleton.mpr rfl))
  | [c1, c2] =>
    by_cases hDF : DigitField [c1, c2] 1 12
    · rw [if_pos hDF]
      obtain ⟨hall, -, -, hlo, hhi⟩ := hDF
      have hd1 : c1.isDigit = true := hall c1 (by simp)
      have hd2 : c2.isDigit = true := hall c2 (by simp)
      have hr1 := (isDigit_iff c1).mp hd1
      have hr2 := (isDigit_iff c2).mp hd2
      rw [digitsToNat_two] at hlo hhi ⊢
      have ha : c1.toNat = 48 ∨ c1.toNat = 49 := by
        unfold digitVal at hlo hhi
        omega
      rcases ha with ha | ha
      · have hc1 : c1 = '0' := char_eq_of_toNat c1 '0' (by rw [ha, toNat_char0])
        subst hc1
        have hb : c2.toNat ≠ 48 := by
          unfold digitVal at hlo
          rw [toNat_char0] at hlo
          omega
        have h02 : c2 ≠ '0' := by
          intro hh
          rw [hh, toNat_char0] at hb
          exact hb rfl
        simp only [matchMonth]
        split_ifs with g1 g2
        · simp at g1
        · simp only [Option.some.injEq, digitVal, toNat_char0]
          omega
        · exfalso
          apply g2
          simp [hd2, h02]
      · have hc1 : c1 = '1' := char_eq_of_toNat c1 '1' (by rw [ha, toNat_char1])
        subst hc1
        have hb : c2.toNat = 48 ∨ c2.toNat = 49 ∨ c2.toNat = 50 := by
          unfold digitVal at hhi
          rw [toNat_char1] at hhi
          omega
        rcases hb with hb | hb | hb
        · have hc2 : c2 = '0' := char_eq_of_toNat c2 '0' (by rw [hb, toNat_char0])
          subst hc2
          decide
        · have hc2 : c2 = '1' := char_eq_of_toNat c2 '1' (by rw [hb, toNat_char1])
          subst hc2
          decide
        · have hc2 : c2 = '2' := char_eq_of_toNat c2 '2' (by rw [hb, toNat_char2])
          subst hc2
          decide
    · rw [if_neg hDF]
      simp only [matchMonth]
      split_ifs with h1 h2
      · exfalso
        simp only [Bool.and_eq_true, Bool.or_eq_true, beq_iff_eq] at h1
        obtain ⟨rfl, hc2⟩ := h1
        apply hDF
        rcases hc2 with (rfl | rfl) | rfl
        · decide
        · decide
        · decide
      · exfalso
        simp only [Bool.and_eq_true, bne_iff_ne, ne_eq, beq_iff_eq] at h2
        obtain ⟨⟨rfl, hd2⟩, h02⟩ := h2
        have hr2 := (isDigit_iff c2).mp hd2
        have hb : c2.toNat ≠ 48 := by
          intro hh
          exact h02 (char_eq_of_toNat c2 '0' (by rw [hh, toNat_char0]))
        apply hDF
        apply DigitField_two '0' c2 1 12 (by decide) hd2
        · simp only [digitVal, toNat_char0]
          omega
        · simp only [digitVal, toNat_char0]
          omega
      · rfl
  | c1 :: c2 :: c3 :: rest =>
    rw [if_neg]
    · rfl
    · rintro ⟨-, -, h, -⟩
      simp [List.length_cons] at h

/-- The `%Y` matcher accepts exactly four digit characters, of any value. -/
theorem matchYear_eq (cs : List Char) :
    matchYear cs = if YearField cs then some (digitsToNat cs) else none := by
  match cs with
  | [] =>
    rw [if_neg]
    · rfl
    · rintro ⟨-, h⟩
      simp at h
  | [c1] =>
    rw [if_neg]
    · rfl
    · rintro ⟨-, h⟩
      simp at h
  | [c1, c2] =>
    rw [if_neg]
    · rfl
    · rintro ⟨-, h⟩
      simp at h
  | [c1, c2, c3] =>
    rw [if_neg]
    · rfl
    · rintro ⟨-, h⟩
      simp at h
  | [c1, c2, c3, c4] =>
    by_cases g : c1.isDigit = true ∧ c2.isDigit = true ∧ c3.isDigit = true ∧ c4.isDigit = true
    · have hYF : YearField [c1, c2, c3, c4] := by
        refine ⟨?_, rfl⟩
        simp only [List.forall_mem_cons]
        exact ⟨g.1, g.2.1, g.2.2.1, g.2.2.2, fun x hx => absurd hx (List.not_mem_nil x)⟩
      rw [if_pos hYF, digitsToNat_four]
      simp only [matchYear]
      rw [if_pos (by simp [g.1, g.2.1, g.2.2.1, g.2.2.2])]
    · have hYF : ¬ YearField [c1, c2, c3, c4] := by
        rintro ⟨hall, -⟩
        exact g ⟨hall c1 (by simp), hall c2 (by simp), hall c3 (by simp), hall c4 (by simp)⟩
      rw [if_neg hYF]
      simp only [matchYear]
      rw [if_neg]
      intro hcond
      simp only [Bool.and_eq_true] at hcond
      exact g ⟨hcond.1.1.1, hcond.1.1.2, hcond.1.2, hcond.2⟩
  | c1 :: c2 :: c3 :: c4 :: c5 :: rest =>
    rw [if_neg]
    · rfl
    · rintro ⟨-, h⟩
      simp [List.length_cons] at h
/-- strptime on the full format: acceptance coincides with the lenient
day.month.year shape test. -/
theorem birthday_validate_iff_lenient (s : String) :
    (Birthday.validate s).isSome = lenientDMY s := by
  cases hsplit : splitOnDot s.data with
  | nil => simp [Birthday.validate, lenientDMY, hsplit]
  | cons ds t1 =>
    cases t1 with
    | nil => simp [Birthday.validate, lenientDMY, hsplit]
    | cons ms t2 =>
      cases t2 with
      | nil => simp [Birthday.validate, lenientDMY, hsplit]
      | cons ys t3 =>
        cases t3 with
        | cons d4 rest => simp [Birthday.validate, lenientDMY, hsplit]
        | nil =>
          simp only [Birthday.validate, lenientDMY, hsplit]
          rw [matchDay_eq, matchMonth_eq, matchYear_eq]
          by_cases hd : DigitField ds 1 31
          · rw [if_pos hd]
            by_cases hm : DigitField ms 1 12
            · rw [if_pos hm]
              by_cases hy : YearField ys
              · rw [if_pos hy]
                by_cases hy1 : 1 ≤ digitsToNat ys
                · by_cases hdim :
                      digitsToNat ds ≤ daysInMonth (digitsToNat ys) (digitsToNat ms)
                  · simp [hd, hm, hy, hy1, hdim]
                  · simp [hd, hm, hy, hy1, hdim]
                · simp [hd, hm, hy, hy1]
              · rw [if_neg hy]
                simp [hd, hm, hy]
            · rw [if_neg hm]
              simp [hd, hm]
          · rw [if_neg hd]
            simp [hd]
/-! Helper lemmas on the association-list dict and on list folds. -/

theorem dictGet_dictSet_self (b : AddressBook) (k : String) (v : Record) :
    dictGet (dictSet b k v) k = some v := by
  induction b with
  | nil => simp [dictSet, dictGet]
  | cons kv rest ih =>
    by_cases h : kv.1 = k
    · simp [dictSet, dictGet, h]
    · simp [dictSet, dictGet, h, ih]

theorem dictGet_dictSet_ne (b : AddressBook) (k k2 : String) (v : Record)
    (h : k2 ≠ k) : dictGet (dictSet b k v) k2 = dictGet b k2 := by
  induction b with
  | nil => simp [dictSet, dictGet, Ne.symm h]
  | cons kv rest ih =>
    by_cases hk : kv.1 = k
    · simp [dictSet, dictGet, hk, Ne.symm h]
    · simp [dictSet, dictGet, hk, ih]

theorem dictGet_none_of_not_mem (b : AddressBook) (k : String)
    (h : k ∉ b.map Prod.fst) : dictGet b k = none := by
  induction b with
  | nil => rfl
  | cons kv rest ih =>
    rw [List.map_cons, List.mem_cons, not_or] at h
    simp [dictGet, Ne.symm h.1, ih h.2]

theorem dictGet_mem (b : AddressBook) (k : String) (r : Record)
    (h : dictGet b k = some r) : (k, r) ∈ b := by
  induction b with
  | nil => simp [dictGet] at h
  | cons kv rest ih =>
    by_cases hk : kv.1 = k
    · rw [dictGet, if_pos (by simp [hk])] at h
      have h2 : kv.2 = r := by injection h
      have hkv : kv = (k, r) := by
        rw [Prod.ext_iff]
        exact ⟨hk, h2⟩
      rw [← hkv]
      exact List.mem_cons_self kv rest
    · rw [dictGet, if_neg (by simp [hk])] at h
      exact List.mem_cons_of_mem kv (ih h)

theorem mem_keys_dictSet (b : AddressBook) (k : String) (v : Record) (x : String)
    (hx : x ∈ (dictSet b k v).map Prod.fst) : x ∈ b.map Prod.fst ∨ x = k := by
  induction b with
  | nil => simp [dictSet] at hx; right; exact hx
  | cons kv rest ih =>
    by_cases hk : kv.1 = k
    · rw [dictSet, if_pos (by simp [hk])] at hx
      rw [List.map_cons, List.mem_cons] at hx
      rcases hx with rfl | hx
      · right; rfl
      · left
        rw [List.map_cons, List.mem_cons]
        right; exact hx
    · rw [dictSet, if_neg (by simp [hk])] at hx
      rw [List.map_cons, List.mem_cons] at hx
      rcases hx with rfl | hx
      · left
        rw [List.map_cons, List.mem_cons]
        left; rfl
      · rcases ih hx with hx2 | hx2
        · left
          rw [List.map_cons, List.mem_cons]
          right; exact hx2
        · right; exact hx2

theorem nodup_keys_dictSet (b : AddressBook) (k : String) (v : Record)
    (h : (b.map Prod.fst).Nodup) : ((dictSet b k v).map Prod.fst).Nodup := by
  induction b with
  | nil => simp [dictSet]
  | cons kv rest ih =>
    rw [List.map_cons, List.nodup_cons] at h
    by_cases hk : kv.1 = k
    · rw [dictSet, if_pos (by simp [hk])]
      rw [List.map_cons, List.nodup_cons]
      exact ⟨hk ▸ h.1, h.2⟩
    · rw [dictSet, if_neg (by simp [hk])]
      rw [List.map_cons, List.nodup_cons]
      refine ⟨?_, ih h.2⟩
      intro hmem
      rcases mem_keys_dictSet rest k v kv.1 hmem with h2 | h2
      · exact h.1 h2
      · exact hk h2

theorem countKey_eq_zero (b : AddressBook) (k : String)
    (h : k ∉ b.map Prod.fst) : countKey b k = 0 := by
  induction b with
  | nil => rfl
  | cons kv rest ih =>
    rw [List.map_cons, List.mem_cons, not_or] at h
    have h2 := ih h.2
    simp only [countKey, List.filter_cons] at h2 ⊢
    rw [if_neg (by simp [Ne.symm h.1])]
    exact h2

theorem countKey_dictSet (b : AddressBook) (k : String) (v : Record)
    (hnd : (b.map Prod.fst).Nodup) : countKey (dictSet b k v) k = 1 := by
  induction b with
  | nil => simp [dictSet, countKey]
  | cons kv rest ih =>
    rw [List.map_cons, List.nodup_cons] at hnd
    by_cases hk : kv.1 = k
    · rw [dictSet, if_pos (by simp [hk])]
      have h0 := countKey_eq_zero rest k (hk ▸ hnd.1)
      simp only [countKey, List.filter_cons] at h0 ⊢
      rw [if_pos (by simp)]
      simp [h0]
    · rw [dictSet, if_neg (by simp [hk])]
      have h2 := ih hnd.2
      simp only [countKey, List.filter_cons] at h2 ⊢
      rw [if_neg (by simp [hk])]
      exact h2

theorem editFirst_head (p : Phone) (ps : List Phone) (new : String) :
    editFirst (p :: ps) p.value new = ⟨new⟩ :: ps := by
  simp [editFirst]

theorem dictDel_error (b : AddressBook) (k : String)
    (h : dictGet b k = none) : dictDel b k = .error .keyError := by
  induction b with
  | nil => rfl
  | cons kv rest ih =>
    rw [dictGet] at h
    by_cases hk : kv.1 = k
    · rw [if_pos (by simp [hk])] at h
      cases h
    · rw [if_neg (by simp [hk])] at h
      rw [dictDel, if_neg (by simp [hk]), ih h]

theorem dictDel_ok (b : AddressBook) (k : String) (r : Record)
    (hnd : (b.map Prod.fst).Nodup) (h : dictGet b k = some r) :
    ∃ b2, dictDel b k = .ok b2 ∧ dictGet b2 k = none ∧
      ∀ k2, k2 ≠ k → dictGet b2 k2 = dictGet b k2 := by
  induction b with
  | nil => simp [dictGet] at h
  | cons kv rest ih =>
    rw [List.map_cons, List.nodup_cons] at hnd
    by_cases hk : kv.1 = k
    · refine ⟨rest, ?_, ?_, ?_⟩
      · rw [dictDel, if_pos (by simp [hk])]
      · exact dictGet_none_of_not_mem rest k (hk ▸ hnd.1)
      · intro k2 hne
        conv_rhs => rw [dictGet]
        rw [if_neg (by simp only [hk, beq_iff_eq]; exact Ne.symm hne)]
    · rw [dictGet, if_neg (by simp [hk])] at h
      obtain ⟨b2, hdel, hnone, hoth⟩ := ih hnd.2 h
      refine ⟨kv :: b2, ?_, ?_, ?_⟩
      · rw [dictDel, if_neg (by simp [hk]), hdel]
      · rw [dictGet, if_neg (by simp [hk]), hnone]
      · intro k2 hne
        by_cases h2 : kv.1 = k2
        · rw [dictGet, if_pos (by simp [h2])]
          conv_rhs => rw [dictGet]
          rw [if_pos (by simp [h2])]
        · rw [dictGet, if_neg (by simp [h2]), hoth k2 hne]
          conv_rhs => rw [dictGet]
          rw [if_neg (by simp [h2])]

theorem tupLe_eq_pairLexLe (a b : Nat × Nat) : tupLe a b = decide (pairLexLe a b) := by
  rw [Bool.eq_iff_iff]
  simp [tupLe, pairLexLe]

theorem foldl_select (p : Record → Bool) (l acc : List Record) :
    l.foldl (fun acc2 c => if p c then acc2 ++ [c] else acc2) acc = acc ++ l.filter p := by
  induction l generalizing acc with
  | nil => simp
  | cons hd tl ih =>
    rw [List.foldl_cons, List.filter_cons]
    by_cases h : p hd = true
    · rw [if_pos h, if_pos h, ih, List.append_assoc, List.singleton_append]
    · rw [if_neg h, if_neg h, ih]
/-! Invariant preservation helpers for the reachable-state claim. -/

theorem mem_dictSet (b : AddressBook) (k : String) (v : Record) (x : String × Record)
    (hx : x ∈ dictSet b k v) : x ∈ b ∨ x = (k, v) := by
  induction b with
  | nil =>
    simp only [dictSet, List.mem_singleton] at hx
    right; exact hx
  | cons kv rest ih =>
    by_cases hk : kv.1 = k
    · rw [dictSet, if_pos (by simp [hk])] at hx
      rw [List.mem_cons] at hx
      rcases hx with rfl | hx
      · right; rfl
      · left; exact List.mem_cons_of_mem kv hx
    · rw [dictSet, if_neg (by simp [hk])] at hx
      rw [List.mem_cons] at hx
      rcases hx with rfl | hx
      · left; exact List.mem_cons_self x rest
      · rcases ih hx with h2 | h2
        · left; exact List.mem_cons_of_mem kv h2
        · right; exact h2

theorem mem_dictDel (b : AddressBook) (k : String) :
    ∀ b2, dictDel b k = .ok b2 → ∀ x ∈ b2, x ∈ b := by
  induction b with
  | nil =>
    intro b2 hdel
    cases hdel
  | cons kv rest ih =>
    intro b2 hdel x hx
    rw [dictDel] at hdel
    by_cases hk : kv.1 = k
    · rw [if_pos (by simp [hk])] at hdel
      injection hdel with h2
      rw [← h2] at hx
      exact List.mem_cons_of_mem kv hx
    · rw [if_neg (by simp [hk])] at hdel
      cases hrec : dictDel rest k with
      | ok rest2 =>
        rw [hrec] at hdel
        injection hdel with h2
        rw [← h2] at hx
        rw [List.mem_cons] at hx
        rcases hx with rfl | hx
        · exact List.mem_cons_self x rest
        · exact List.mem_cons_of_mem kv (ih rest2 hrec x hx)
      | error e =>
        rw [hrec] at hdel
        cases hdel

theorem nameKey_dictSet (b : AddressBook) (k : String) (v : Record)
    (hb : NameKeyInvariant b) (hv : v.name.value = k) :
    NameKeyInvariant (dictSet b k v) := by
  intro kv hkv
  rcases mem_dictSet b k v kv hkv with h | h
  · exact hb kv h
  · rw [h]
    exact hv

theorem nameKey_updateAt (b : AddressBook) (n : String) (f : Record → Record)
    (hb : NameKeyInvariant b) (hf : ∀ r, (f r).name = r.name) :
    NameKeyInvariant (updateAt b n f) := by
  intro kv hkv
  rw [updateAt, List.mem_map] at hkv
  obtain ⟨kv0, hkv0, heq⟩ := hkv
  by_cases hk : kv0.1 = n
  · rw [if_pos (by simp [hk])] at heq
    rw [← heq]
    show (f kv0.2).name.value = kv0.1
    rw [hf kv0.2]
    exact hb kv0 hkv0
  · rw [if_neg (by simp [hk])] at heq
    rw [← heq]
    exact hb kv0 hkv0

theorem applyOp_preserves (b : AddressBook) (op : Op)
    (hb : NameKeyInvariant b) : NameKeyInvariant (applyOp b op) := by
  cases op with
  | addRecord r =>
    intro kv hkv
    rcases mem_dictSet b r.name.value r kv hkv with h | h
    · exact hb kv h
    · rw [h]
  | del n =>
    show NameKeyInvariant (match AddressBook.delete b n with
      | .ok b2 => b2
      | .error _ => b)
    cases hdel : AddressBook.delete b n with
    | ok b2 => exact fun kv hkv => hb kv (mem_dictDel b n b2 hdel kv hkv)
    | error e => exact hb
  | changePhone n p =>
    show NameKeyInvariant (AddressBook.change_phone b n p)
    rw [AddressBook.change_phone]
    cases hget : dictGet b n with
    | none => exact hb
    | some r =>
      cases hp : r.phones with
      | nil =>
        simp only [hp]
        exact hb
      | cons p0 ps =>
        simp only [hp]
        apply nameKey_dictSet b n _ hb
        exact hb (n, r) (dictGet_mem b n r hget)
  | addPhone n s =>
    simp only [applyOp]
    apply nameKey_updateAt b n _ hb
    intro r
    cases h : Phone.init s <;> simp [Record.add_phone, h]
  | removePhone n s =>
    simp only [applyOp]
    apply nameKey_updateAt b n _ hb
    intro r
    rfl
  | editPhone n o w =>
    simp only [applyOp]
    apply nameKey_updateAt b n _ hb
    intro r
    rfl
  | setBirthday n bd =>
    simp only [applyOp]
    apply nameKey_updateAt b n _ hb
    intro r
    rfl
theorem birthdaysUpcoming_eq_filter (b : AddressBook) (today : Date) :
    birthdaysUpcoming b today = (b.map Prod.snd).filter (specSelected today) := by
  unfold birthdaysUpcoming
  have hfun : (fun (acc : List Record) (contact : Record) =>
      match contact.birthday with
      | none => acc
      | some bd =>
        if tupLe (today.day, today.month) (bd.value.day, bd.value.month) &&
           tupLe (bd.value.day, bd.value.month)
             ((Date.addDays today 7).day, (Date.addDays today 7).month)
        then acc ++ [contact] else acc) =
      (fun acc2 c => if specSelected today c then acc2 ++ [c] else acc2) := by
    funext acc c
    cases hb : c.birthday with
    | none => simp [specSelected, hb]
    | some bd => simp [specSelected, hb, tupLe_eq_pairLexLe]
  rw [hfun, foldl_select, List.nil_append]

/-! The claims. -/

/-- Claim C1 (code_bug).  The claim says `days_to_birthday` returns the
non-negative day count to the next occurrence of the birthday (0 on the
birthday itself) and `None` with no birthday set.  The `None` half holds, but
for every record whose birthday is set the method raises `AttributeError`: line
70 reads `self.birthday.month`, and a `Birthday` object carries only the
attribute `value`. -/
theorem days_to_birthday_attribute_error (r : Record) (today : Date) :
    (r.birthday = none → Record.days_to_birthday r today = .ok none) ∧
    (∀ bd, r.birthday = some bd →
      Record.days_to_birthday r today = .error .attributeError) := by
  constructor
  · intro h
    simp [Record.days_to_birthday, h]
  · intro bd h
    simp [Record.days_to_birthday, h]

theorem days_to_birthday_attribute_error_witness :
    Record.days_to_birthday (Record.init "Ann") ⟨2024, 3, 10⟩ = .ok none ∧
    Record.days_to_birthday
        (Record.add_birthday (Record.init "Ann") ⟨⟨1990, 1, 15⟩⟩) ⟨2024, 3, 10⟩ =
      .error .attributeError :=
  ⟨(days_to_birthday_attribute_error (Record.init "Ann") ⟨2024, 3, 10⟩).1 rfl,
   (days_to_birthday_attribute_error
      (Record.add_birthday (Record.init "Ann") ⟨⟨1990, 1, 15⟩⟩) ⟨2024, 3, 10⟩).2
     ⟨⟨1990, 1, 15⟩⟩ rfl⟩

/-- Claim C2 (confirmed).  The upcoming-birthdays query keeps exactly the
records with a birthday whose (day, month) pair lies, in lexicographic tuple
order, in the inclusive window from today's (day, month) to (today + 7 days)'s
(day, month); in particular, with today = 28.12 a birthday on 2.1 is not
selected, the documented defect of the tuple ordering. -/
theorem birthdays_handler_tuple_window :
    (∀ (b : AddressBook) (today : Date),
      birthdaysUpcoming b today = (b.map Prod.snd).filter (specSelected today)) ∧
    birthdaysUpcoming [("Ann", ⟨⟨"Ann"⟩, [], some ⟨⟨1990, 1, 2⟩⟩⟩)] ⟨2024, 12, 28⟩ = [] := by
  constructor
  · exact birthdaysUpcoming_eq_filter
  · decide

/-- Claim C3 (confirmed).  Phone construction succeeds, storing the string
unchanged, exactly when the string has length 10 and every character is a
decimal digit 0-9; every other string raises `ValueError` (the `InvalidPhone`
failure), and no normalization happens. -/
theorem phone_validation_iff (s : String) :
    (Phone.init s = .ok ⟨s⟩ ∨ Phone.init s = .error .valueError) ∧
    (Phone.init s = .ok ⟨s⟩ ↔
      s.length = 10 ∧ ∀ c ∈ s.data, '0' ≤ c ∧ c ≤ '9') := by
  have hchar : ∀ c : Char, (c.isDigit = true) ↔ ('0' ≤ c ∧ c ≤ '9') := by
    intro c
    rw [isDigit_iff, char_le_iff, char_le_iff]
    exact Iff.rfl
  constructor
  · rw [Phone.init]
    split_ifs with h
    · left; rfl
    · right; rfl
  · rw [Phone.init]
    split_ifs with h
    · constructor
      · intro h2
        rw [Phone.validate, Bool.and_eq_true, beq_iff_eq, List.all_eq_true] at h
        exact ⟨h.1, fun c hc => (hchar c).mp (h.2 c hc)⟩
      · intro h2
        rfl
    · constructor
      · intro h2
        simp at h2
      · intro h2
        exfalso
        apply h
        rw [Phone.validate, Bool.and_eq_true, beq_iff_eq, List.all_eq_true]
        exact ⟨h2.1, fun c hc => (hchar c).mpr (h2.2 c hc)⟩

/-- Claim C4 (corrected), counterexample.  The claim states parsing succeeds
only for strictly two-digit day and month; but the code accepts "1.1.1990",
whose day and month are single digits, so the claimed equivalence is false. -/
theorem birthday_two_digit_claim_false :
    ¬ ∀ s : String, ((Birthday.validate s).isSome = true ↔ strictFormatValid s = true) := by
  intro h
  have h1 : strictFormatValid "1.1.1990" = true := (h "1.1.1990").mp (by decide)
  have h2 : strictFormatValid "1.1.1990" = false := by decide
  rw [h2] at h1
  cases h1

/-- Claim C4 (corrected), amended claim.  Parsing succeeds exactly for
day.month.year strings with a one- or two-digit day of value 1-31, a one- or
two-digit month of value 1-12, and a four-digit year, denoting a possible
calendar date; "29.02.2021" fails (2021 is not a leap year) and "29.02.2020"
succeeds.  No other separators or partial dates are accepted. -/
theorem birthday_validate_amended :
    Birthday.validate "29.02.2021" = none ∧
    Birthday.validate "29.02.2020" = some ⟨2020, 2, 29⟩ ∧
    ∀ s : String, (Birthday.validate s).isSome = lenientDMY s :=
  ⟨by decide, by decide, birthday_validate_iff_lenient⟩

/-- Claim C5 (confirmed).  `remove_phone` removes every phone entry equal to
the given number, keeps the surviving phones in their original relative order
(the result is a sublist), keeps every non-matching phone, is a no-op when
nothing matches, and does not touch the name or birthday. -/
theorem remove_phone_removes_all (r : Record) (n : String) :
    (∀ p ∈ (Record.remove_phone r n).phones, p.value ≠ n) ∧
    (Record.remove_phone r n).phones.Sublist r.phones ∧
    (∀ p ∈ r.phones, p.value ≠ n → p ∈ (Record.remove_phone r n).phones) ∧
    ((∀ p ∈ r.phones, p.value ≠ n) → Record.remove_phone r n = r) ∧
    (Record.remove_phone r n).name = r.name ∧
    (Record.remove_phone r n).birthday = r.birthday := by
  refine ⟨?_, ?_, ?_, ?_, rfl, rfl⟩
  · intro p hp
    rw [Record.remove_phone] at hp
    simp only [List.mem_filter, bne_iff_ne, ne_eq] at hp
    exact hp.2
  · exact List.filter_sublist r.phones
  · intro p hp hne
    rw [Record.remove_phone]
    simp only [List.mem_filter, bne_iff_ne, ne_eq]
    exact ⟨hp, hne⟩
  · intro hall
    rw [Record.remove_phone, List.filter_eq_self.mpr ?_]
    intro p hp
    simp only [bne_iff_ne, ne_eq]
    exact hall p hp

theorem remove_phone_removes_all_witness :
    (Record.remove_phone
        ⟨⟨"Ann"⟩, [⟨"5555555555"⟩, ⟨"5555555555"⟩, ⟨"1111111111"⟩], none⟩
        "5555555555").phones.Sublist
      [⟨"5555555555"⟩, ⟨"5555555555"⟩, ⟨"1111111111"⟩] ∧
    Record.remove_phone ⟨⟨"Bob"⟩, [⟨"1111111111"⟩], none⟩ "5555555555" =
      ⟨⟨"Bob"⟩, [⟨"1111111111"⟩], none⟩ :=
  ⟨(remove_phone_removes_all
      ⟨⟨"Ann"⟩, [⟨"5555555555"⟩, ⟨"5555555555"⟩, ⟨"1111111111"⟩], none⟩
      "5555555555").2.1,
   (remove_phone_removes_all ⟨⟨"Bob"⟩, [⟨"1111111111"⟩], none⟩ "5555555555").2.2.2.1
     (by decide)⟩
/-- Claim C6 (confirmed).  `change_phone` on a stored record with at least one
phone replaces the value of the first phone by `new_phone` (no validation: the
statement holds for every string) and leaves the remaining phones and all other
keys unchanged; a missing record or an empty phone list is a silent no-op. -/
theorem change_phone_first_phone (b : AddressBook) (name new_phone : String) :
    (∀ r p ps, AddressBook.find b name = some r → r.phones = p :: ps →
      AddressBook.find (AddressBook.change_phone b name new_phone) name =
        some { r with phones := ⟨new_phone⟩ :: ps }) ∧
    (∀ k, k ≠ name →
      AddressBook.find (AddressBook.change_phone b name new_phone) k =
        AddressBook.find b k) ∧
    (AddressBook.find b name = none →
      AddressBook.change_phone b name new_phone = b) ∧
    (∀ r, AddressBook.find b name = some r → r.phones = [] →
      AddressBook.change_phone b name new_phone = b) := by
  refine ⟨?_, ?_, ?_, ?_⟩
  · intro r p ps hfind hp
    simp only [AddressBook.find] at hfind ⊢
    simp only [AddressBook.change_phone, hfind, hp]
    rw [dictGet_dictSet_self, Record.edit_phone, hp, editFirst_head]
  · intro k hk
    simp only [AddressBook.find, AddressBook.change_phone]
    cases hget : dictGet b name with
    | none => rfl
    | some r =>
      cases hp : r.phones with
      | nil =>
        simp only [hp]
      | cons p0 ps =>
        simp only [hp]
        exact dictGet_dictSet_ne b name k _ hk
  · intro hnone
    simp only [AddressBook.find] at hnone
    simp only [AddressBook.change_phone, hnone]
  · intro r hfind hp
    simp only [AddressBook.find] at hfind
    simp only [AddressBook.change_phone, hfind, hp]

theorem change_phone_first_phone_witness :
    AddressBook.find
        (AddressBook.change_phone
          [("Bob", ⟨⟨"Bob"⟩, [⟨"0000000000"⟩], none⟩)] "Bob" "1234567890")
        "Bob" = some ⟨⟨"Bob"⟩, [⟨"1234567890"⟩], none⟩ ∧
    AddressBook.change_phone
        [("Bob", ⟨⟨"Bob"⟩, [⟨"0000000000"⟩], none⟩)] "Ann" "1234567890" =
      [("Bob", ⟨⟨"Bob"⟩, [⟨"0000000000"⟩], none⟩)] :=
  ⟨(change_phone_first_phone
      [("Bob", ⟨⟨"Bob"⟩, [⟨"0000000000"⟩], none⟩)] "Bob" "1234567890").1
      ⟨⟨"Bob"⟩, [⟨"0000000000"⟩], none⟩ ⟨"0000000000"⟩ [] (by decide) rfl,
   (change_phone_first_phone
      [("Bob", ⟨⟨"Bob"⟩, [⟨"0000000000"⟩], none⟩)] "Ann" "1234567890").2.2.1
     (by decide)⟩

/-- Claim C7 (confirmed).  `add_record` stores the record under its name as
key; inserting two records of the same name in sequence leaves the book with
that name mapped to the second record, and (when the book's keys were unique)
exactly one entry stored under that name. -/
theorem add_record_overwrites (b : AddressBook) (r1 r2 : Record)
    (hname : r1.name.value = r2.name.value)
    (hnd : (b.map Prod.fst).Nodup) :
    AddressBook.find (AddressBook.add_record (AddressBook.add_record b r1) r2)
        r2.name.value = some r2 ∧
    countKey (AddressBook.add_record (AddressBook.add_record b r1) r2)
        r2.name.value = 1 ∧
    (∀ (b2 : AddressBook) (r : Record),
      AddressBook.find (AddressBook.add_record b2 r) r.name.value = some r) := by
  refine ⟨?_, ?_, ?_⟩
  · exact dictGet_dictSet_self _ _ _
  · exact countKey_dictSet _ _ _ (nodup_keys_dictSet b r1.name.value r1 hnd)
  · intro b2 r
    exact dictGet_dictSet_self _ _ _

theorem add_record_overwrites_witness :
    AddressBook.find
        (AddressBook.add_record (AddressBook.add_record [] (Record.init "Ann"))
          ⟨⟨"Ann"⟩, [⟨"1234567890"⟩], none⟩) "Ann" =
      some ⟨⟨"Ann"⟩, [⟨"1234567890"⟩], none⟩ ∧
    countKey
        (AddressBook.add_record (AddressBook.add_record [] (Record.init "Ann"))
          ⟨⟨"Ann"⟩, [⟨"1234567890"⟩], none⟩) "Ann" = 1 :=
  ⟨(add_record_overwrites [] (Record.init "Ann") ⟨⟨"Ann"⟩, [⟨"1234567890"⟩], none⟩
      rfl (by simp)).1,
   (add_record_overwrites [] (Record.init "Ann") ⟨⟨"Ann"⟩, [⟨"1234567890"⟩], none⟩
      rfl (by simp)).2.1⟩

/-- Claim C8 (confirmed).  `delete` on a missing name raises `KeyError` (the
`NotFound` failure), while the lookup miss of `show_phone` is the absent value
`none` (and `find` returns an `Option` by construction); on a present name
`delete` removes exactly that entry. -/
theorem delete_raises_lookups_absent (b : AddressBook) (n : String)
    (hnd : (b.map Prod.fst).Nodup) :
    (AddressBook.find b n = none →
      AddressBook.delete b n = .error .keyError ∧ AddressBook.show_phone b n = none) ∧
    (∀ r, AddressBook.find b n = some r →
      ∃ b2, AddressBook.delete b n = .ok b2 ∧ AddressBook.find b2 n = none ∧
        ∀ k, k ≠ n → AddressBook.find b2 k = AddressBook.find b k) := by
  constructor
  · intro h
    simp only [AddressBook.find] at h
    constructor
    · exact dictDel_error b n h
    · simp [AddressBook.show_phone, h]
  · intro r h
    simp only [AddressBook.find] at h
    exact dictDel_ok b n r hnd h

theorem delete_raises_lookups_absent_witness :
    AddressBook.delete [("Ann", Record.init "Ann")] "Carol" = .error .keyError ∧
    AddressBook.show_phone [("Ann", Record.init "Ann")] "Carol" = none :=
  (delete_raises_lookups_absent [("Ann", Record.init "Ann")] "Carol" (by simp)).1
    (by decide)

/-- Claim C9 (code_bug).  The claim says a record always renders as
"Contact name: ..., phones: ..., birthday: ...", also with no birthday set.
In the code the whole f-string chain is the if-branch of one ternary, so a
record without a birthday renders as the empty string; with a birthday set the
claimed format holds. -/
theorem record_str_empty_without_birthday (r : Record) :
    (r.birthday = none → Record.str r = "") ∧
    (∀ bd, r.birthday = some bd →
      Record.str r =
        "Contact name: " ++ r.name.value ++ ", phones: " ++
          String.intercalate "; " (r.phones.map Phone.value) ++
          ", birthday: " ++ datetimeStr bd.value) := by
  constructor
  · intro h
    simp [Record.str, h]
  · intro bd h
    simp [Record.str, h]

theorem record_str_empty_without_birthday_witness :
    Record.str ⟨⟨"Ann"⟩, [⟨"1234567890"⟩], none⟩ = "" ∧
    Record.str ⟨⟨"Ann"⟩, [⟨"1234567890"⟩], some ⟨⟨1990, 12, 24⟩⟩⟩ =
      "Contact name: Ann, phones: 1234567890, birthday: 1990-12-24 00:00:00" := by
  constructor
  · exact (record_str_empty_without_birthday ⟨⟨"Ann"⟩, [⟨"1234567890"⟩], none⟩).1 rfl
  · rw [(record_str_empty_without_birthday
        ⟨⟨"Ann"⟩, [⟨"1234567890"⟩], some ⟨⟨1990, 12, 24⟩⟩⟩).2 ⟨⟨1990, 12, 24⟩⟩ rfl]
    decide

/-- Claim C10 (confirmed).  Every address book reachable from the empty book
by any sequence of add_record, delete, change_phone, add_phone, remove_phone,
edit_phone and set_birthday operations satisfies the invariant that each stored
record's name field equals its key. -/
theorem reachable_name_key_invariant (b : AddressBook) (h : Reachable b) :
    NameKeyInvariant b := by
  induction h with
  | empty =>
    intro kv hkv
    cases hkv
  | step b2 op hr ih => exact applyOp_preserves b2 op ih

theorem reachable_name_key_invariant_witness :
    NameKeyInvariant [("Ann", Record.init "Ann")] :=
  reachable_name_key_invariant _
    (Reachable.step [] (Op.addRecord (Record.init "Ann")) Reachable.empty)

end Hw3
